import Mathlib

/-!
# Verification of the resistance-distance web-show core

A shallow embedding of the computational core of the repository
(`src/algorithms/abwalkVSp.ts`, the JS `pushVSpJS`, `src/wasm/resistance.cpp`,
`src/workers/resistance.worker.ts`, `src/hooks/useResistanceWorker.ts`,
`src/utils/errorMetrics.ts`, `src/utils/graphParser.ts`), together with
theorems settling the frozen claims about it.

Conventions used throughout:
* JavaScript / C++ `double` values are modelled by exact rationals `ℚ`; the
  IEEE special values produced by division by zero are modelled by the
  four-constructor type `JsNum` (finite, `+∞`, `-∞`, `NaN`), which is used
  exactly where the source can divide by zero (the final combination
  formulas of both estimators).
* Unbounded `while` loops are embedded with an explicit fuel argument and
  return `Option _`: `none` models the loop still running after `fuel`
  iterations (in particular, a result that is `none` for every fuel models
  non-termination).
* `Math.random()` is modelled by an ambient stream `ρ : ℕ → ℚ` of
  successive values, consumed left to right.
-/

namespace RWeb

/-- An arc list: every undirected edge of the input graph is stored as two
opposite directed arcs (`Graph.edges` in `src/types/graph.ts`). -/
abbrev Arcs := List (ℕ × ℕ)

/-- Adjacency list of a node, in arc-insertion order, exactly as built by
`for (const edge of graph.edges) adjacencyList[edge.source].push(edge.target)`
in both JS algorithm files and by the corresponding loops in
`resistance.cpp`. -/
def adj (arcs : Arcs) (u : ℕ) : List ℕ :=
  (arcs.filter (fun e => e.1 = u)).map (fun e => e.2)

/-- Degree of a node: the number of outgoing arcs, exactly as computed by
`for (const edge of graph.edges) degree[edge.source]++`. -/
def deg (arcs : Arcs) (u : ℕ) : ℕ :=
  (arcs.filter (fun e => e.1 = u)).length

/-- Degree as a rational (the sources keep degrees in `double` arrays). -/
def degQ (arcs : Arcs) (u : ℕ) : ℚ := (deg arcs u : ℚ)

/-- Model of a JavaScript / C++ IEEE `double` as far as the embedded code
exercises it: an exact rational, `Infinity`, `-Infinity` or `NaN`. -/
inductive JsNum where
  | num : ℚ → JsNum
  | inf : JsNum
  | ninf : JsNum
  | nan : JsNum
deriving DecidableEq, Repr

namespace JsNum

/-- IEEE addition on the embedded doubles (finite arithmetic is exact). -/
def add : JsNum → JsNum → JsNum
  | nan, _ => nan
  | _, nan => nan
  | num a, num b => num (a + b)
  | num _, inf => inf
  | num _, ninf => ninf
  | inf, num _ => inf
  | ninf, num _ => ninf
  | inf, inf => inf
  | ninf, ninf => ninf
  | inf, ninf => nan
  | ninf, inf => nan

/-- IEEE negation. -/
def neg : JsNum → JsNum
  | num a => num (-a)
  | inf => ninf
  | ninf => inf
  | nan => nan

/-- IEEE subtraction, `a - b = a + (-b)`. -/
def sub (a b : JsNum) : JsNum := add a (neg b)

end JsNum

/-- IEEE division of two finite values (the only divisions the sources
perform on possibly-zero denominators): `a / 0` is `NaN` for `a = 0` and
`±Infinity` otherwise; a nonzero denominator gives the exact quotient. -/
def jsDivQ (a b : ℚ) : JsNum :=
  if b = 0 then
    if a = 0 then JsNum.nan
    else if a > 0 then JsNum.inf
    else JsNum.ninf
  else JsNum.num (a / b)

/-! ## The JavaScript push estimator (`pushVSpJS`, `src/algorithms/pushVSp.ts`) -/

/-- State of one push phase in `pushVSpJS`: residual array `rs`/`rt`,
settled array `ps`/`pt`, the FIFO `queue`, and the `inQueue` membership set. -/
structure PushStateJS where
  r : ℕ → ℚ
  p : ℕ → ℚ
  queue : List ℕ
  inQ : ℕ → Bool

/-- The inner `for (const nei of adjacencyList[u])` loop of a push phase:
skip the landmark, add `rs[u]/degree[u]` to `rs[nei]` (reading the current
`rs[u]`, which matters for self-loops), and enqueue `nei` when it is not in
the queue and its new residual exceeds `degree[nei] * rmax`. -/
def pushNeighborsJS (arcs : Arcs) (v : ℕ) (rmax : ℚ) (u : ℕ) :
    List ℕ → (ℕ → ℚ) → List ℕ → (ℕ → Bool) → (ℕ → ℚ) × List ℕ × (ℕ → Bool)
  | [], r, q, inq => (r, q, inq)
  | nei :: rest, r, q, inq =>
    if nei = v then pushNeighborsJS arcs v rmax u rest r q inq
    else
      let r' : ℕ → ℚ := fun x => if x = nei then r nei + r u / degQ arcs u else r x
      if inq nei = false ∧ degQ arcs nei * rmax < r' nei then
        pushNeighborsJS arcs v rmax u rest r' (q ++ [nei]) (fun x => if x = nei then true else inq x)
      else
        pushNeighborsJS arcs v rmax u rest r' q inq

/-- The `while (queue.length > 0)` loop of a push phase, with fuel: dequeue
`u`, drop it from the membership set, settle its residual, process its
neighbors, zero its residual, and count the push.  `none` models the loop
still running after `fuel` iterations. -/
def pushLoopJS (arcs : Arcs) (v : ℕ) (rmax : ℚ) :
    ℕ → PushStateJS → ℕ → Option ((ℕ → ℚ) × ℕ)
  | fuel, st, cnt =>
    match st.queue, fuel with
    | [], _ => some (st.p, cnt)
    | _ :: _, 0 => none
    | u :: qrest, fuel' + 1 =>
      let inq1 : ℕ → Bool := fun x => if x = u then false else st.inQ x
      let p' : ℕ → ℚ := fun x => if x = u then st.p x + st.r x else st.p x
      let res := pushNeighborsJS arcs v rmax u (adj arcs u) st.r qrest inq1
      let r'' : ℕ → ℚ := fun x => if x = u then 0 else res.1 x
      pushLoopJS arcs v rmax fuel' ⟨r'', p', res.2.1, res.2.2⟩ (cnt + 1)

/-- One full push phase of `pushVSpJS` seeded at `seed`: residual 1 at the
seed, queue seeded with it unless `seed = v`.  Returns the settled vector
and the number of processed queue entries (`pushCount`). -/
def pushPhaseJS (arcs : Arcs) (v : ℕ) (rmax : ℚ) (seed : ℕ) (fuel : ℕ) :
    Option ((ℕ → ℚ) × ℕ) :=
  let r0 : ℕ → ℚ := fun x => if x = seed then 1 else 0
  let p0 : ℕ → ℚ := fun _ => 0
  if seed = v then
    pushLoopJS arcs v rmax fuel ⟨r0, p0, [], fun _ => false⟩ 0
  else
    pushLoopJS arcs v rmax fuel ⟨r0, p0, [seed], fun x => if x = seed then true else false⟩ 0

/-- The final combination
`ps[s]/degree[s] + pt[t]/degree[t] - ps[t]/degree[s] - pt[s]/degree[t]`,
with JavaScript division semantics (division by a zero degree produces
`Infinity`/`NaN`, not an error). -/
def pushCombine (arcs : Arcs) (s t : ℕ) (ps pt : ℕ → ℚ) : JsNum :=
  JsNum.sub
    (JsNum.sub
      (JsNum.add (jsDivQ (ps s) (degQ arcs s)) (jsDivQ (pt t) (degQ arcs t)))
      (jsDivQ (ps t) (degQ arcs s)))
    (jsDivQ (pt s) (degQ arcs t))

/-- `pushVSpJS(graph, {s, t, v, rmax})`: the two push phases followed by the
combination formula.  `none` models a phase loop that has not finished
within `fuel` iterations. -/
def pushVSpJS (fuel : ℕ) (arcs : Arcs) (s t v : ℕ) (rmax : ℚ) : Option JsNum := do
  let phs ← pushPhaseJS arcs v rmax s fuel
  let pht ← pushPhaseJS arcs v rmax t fuel
  pure (pushCombine arcs s t phs.1 pht.1)

/-- A graph on nodes `{0, 1, 2}` whose only edge joins 1 and 2, so node 0 is
isolated (degree 0). -/
def gIsolated : Arcs := [(1, 2), (2, 1)]

/-- A graph consisting of the single undirected edge 0–1. -/
def gEdge : Arcs := [(0, 1), (1, 0)]

/-! ## The specification's push phase (spec §4.2), for the refinement claim C5 -/

/-- The spec's neighbor step, written from the specification text of §4.2
step 3: "for every neighbor w of u with w ≠ v, add r[u]/degree(u) to r[w];
if r[w] now exceeds degree(w) × rmax and w is not already queued, enqueue
w".  The state is (residual, queue, queued-mark). -/
def specPushNeighbors (arcs : Arcs) (v : ℕ) (rmax : ℚ) (u : ℕ)
    (nbrs : List ℕ) (st : (ℕ → ℚ) × List ℕ × (ℕ → Bool)) :
    (ℕ → ℚ) × List ℕ × (ℕ → Bool) :=
  nbrs.foldl
    (fun acc w =>
      if w = v then acc
      else
        let r' : ℕ → ℚ := fun x => if x = w then acc.1 w + acc.1 u / degQ arcs u else acc.1 x
        if degQ arcs w * rmax < r' w ∧ acc.2.2 w = false then
          (r', acc.2.1 ++ [w], fun x => if x = w then true else acc.2.2 x)
        else (r', acc.2.1, acc.2.2))
    st

/-- The spec's push-phase loop (spec §4.2 step 3): while the queue is
non-empty, dequeue `u` (clearing its queued-mark), add its residual into
`settled[u]`, process the neighbors, then zero `r[u]`. -/
def specPushLoop (arcs : Arcs) (v : ℕ) (rmax : ℚ) :
    ℕ → (ℕ → ℚ) → (ℕ → ℚ) → List ℕ → (ℕ → Bool) → Option (ℕ → ℚ)
  | fuel, r, settled, queue, act =>
    match queue, fuel with
    | [], _ => some settled
    | _ :: _, 0 => none
    | u :: rest, fuel' + 1 =>
      let settled' : ℕ → ℚ := fun x => if x = u then settled x + r x else settled x
      let st := specPushNeighbors arcs v rmax u (adj arcs u)
        (r, rest, fun x => if x = u then false else act x)
      specPushLoop arcs v rmax fuel' (fun x => if x = u then 0 else st.1 x) settled' st.2.1 st.2.2

/-- The spec's push phase (spec §4.2 steps 1–2): residual 1 at the seed
node, FIFO at-most-once queue seeded with the seed unless it equals `v`;
returns the settled vector. -/
def specPushPhase (arcs : Arcs) (v : ℕ) (rmax : ℚ) (seed : ℕ) (fuel : ℕ) :
    Option (ℕ → ℚ) :=
  let r0 : ℕ → ℚ := fun x => if x = seed then 1 else 0
  if seed = v then specPushLoop arcs v rmax fuel r0 (fun _ => 0) [] (fun _ => false)
  else specPushLoop arcs v rmax fuel r0 (fun _ => 0) [seed] (fun x => if x = seed then true else false)

/-! ## The C++ push implementation (`pushVSp`, `src/wasm/resistance.cpp`) -/

/-- The `SimpleQueue` class of `resistance.cpp`: a grow-only array `data`,
a `front` index that advances on `pop`, and an `inQueue` boolean array. -/
structure SimpleQueue where
  data : List ℕ
  front : ℕ
  inQ : ℕ → Bool

/-- `SimpleQueue::push`: append the node only if it is not marked in-queue. -/
def SimpleQueue.push (q : SimpleQueue) (node : ℕ) : SimpleQueue :=
  if q.inQ node then q
  else { data := q.data ++ [node], front := q.front,
         inQ := fun x => if x = node then true else q.inQ x }

/-- `SimpleQueue::pop`: read `data[front]`, advance `front`, clear the
in-queue mark of the popped node. -/
def SimpleQueue.pop (q : SimpleQueue) : ℕ × SimpleQueue :=
  let node := q.data.getD q.front 0
  (node, { data := q.data, front := q.front + 1,
           inQ := fun x => if x = node then false else q.inQ x })

/-- `SimpleQueue::empty`: `front >= data.size()`. -/
def SimpleQueue.isEmpty (q : SimpleQueue) : Bool := decide (q.data.length ≤ q.front)

/-- The inner neighbor loop of a C++ push phase: identical arithmetic to
the JS loop, but enqueuing through `SimpleQueue::push` (whose membership
check replaces the JS `!inQueue.has(nei)` test). -/
def pushNeighborsCpp (arcs : Arcs) (v : ℕ) (rmax : ℚ) (u : ℕ) :
    List ℕ → (ℕ → ℚ) → SimpleQueue → (ℕ → ℚ) × SimpleQueue
  | [], r, q => (r, q)
  | nei :: rest, r, q =>
    if nei = v then pushNeighborsCpp arcs v rmax u rest r q
    else
      let r' : ℕ → ℚ := fun x => if x = nei then r nei + r u / degQ arcs u else r x
      if degQ arcs nei * rmax < r' nei then
        pushNeighborsCpp arcs v rmax u rest r' (q.push nei)
      else
        pushNeighborsCpp arcs v rmax u rest r' q

/-- The `while (!queue.empty())` loop of a C++ push phase, with fuel. -/
def pushLoopCpp (arcs : Arcs) (v : ℕ) (rmax : ℚ) :
    ℕ → (ℕ → ℚ) → (ℕ → ℚ) → SimpleQueue → Option (ℕ → ℚ)
  | fuel, r, p, q =>
    if q.isEmpty then some p
    else
      match fuel with
      | 0 => none
      | fuel' + 1 =>
        let pr := q.pop
        let u := pr.1
        let p' : ℕ → ℚ := fun x => if x = u then p x + r x else p x
        let st := pushNeighborsCpp arcs v rmax u (adj arcs u) r pr.2
        pushLoopCpp arcs v rmax fuel' (fun x => if x = u then 0 else st.1 x) p' st.2

/-- `pushVSp` of `resistance.cpp`: push from `s`, `queue.clear()`, push
from `t`, then the combination formula (identical to the JS one). -/
def pushVSpCpp (fuel : ℕ) (arcs : Arcs) (s t v : ℕ) (rmax : ℚ) : Option JsNum := do
  let q0 : SimpleQueue := ⟨[], 0, fun _ => false⟩
  let qs := if s ≠ v then q0.push s else q0
  let ps ← pushLoopCpp arcs v rmax fuel (fun x => if x = s then 1 else 0) (fun _ => 0) qs
  let qt := if t ≠ v then q0.push t else q0
  let pt ← pushLoopCpp arcs v rmax fuel (fun x => if x = t then 1 else 0) (fun _ => 0) qt
  pure (pushCombine arcs s t ps pt)

/-- The abstraction relation between the JS queue representation (list of
queued nodes plus membership set) and the C++ `SimpleQueue`. -/
def QRel (jsq : List ℕ) (inq : ℕ → Bool) (cq : SimpleQueue) : Prop :=
  cq.front ≤ cq.data.length ∧ jsq = cq.data.drop cq.front ∧ inq = cq.inQ

/-! ## The random-walk estimator (`abwalkVSpJS`, `src/algorithms/abwalkVSp.ts`) -/

/-- Outcome of one fuel-bounded absorbed walk.  `diverged` models the
`while (u !== v)` loop still running after the fuel is spent; `crashed`
models the JavaScript `TypeError` thrown one iteration after
`neighbors[idx]` returned `undefined` (out-of-range index, e.g. a node
with an empty adjacency list); `ok cs ct k` carries the number of visits
to `s` and to `t` before absorption and the next random-stream index. -/
inductive WalkOut where
  | diverged : WalkOut
  | crashed : WalkOut
  | ok : ℚ → ℚ → ℕ → WalkOut
deriving DecidableEq, Repr

/-- One absorbed random walk of `abwalkVSpJS`: while the current node is
not `v`, count a visit to `s` and/or `t`, then move to
`neighbors[Math.floor(Math.random() * neighbors.length)]`.  The current
node is an `Option ℕ` because `neighbors[idx]` is `undefined` when `idx`
is out of range; the following iteration then crashes. -/
def walkJS (arcs : Arcs) (s t v : ℕ) (ρ : ℕ → ℚ) :
    ℕ → Option ℕ → ℕ → ℚ → ℚ → WalkOut
  | 0, _, _, _, _ => .diverged
  | _ + 1, none, _, _, _ => .crashed
  | fuel + 1, some u, k, cs, ct =>
    if u = v then .ok cs ct k
    else
      walkJS arcs s t v ρ fuel
        ((adj arcs u).get? (⌊ρ k * ((adj arcs u).length : ℚ)⌋).toNat)
        (k + 1)
        (if u = s then cs + 1 else cs)
        (if u = t then ct + 1 else ct)

/-- Outcome of one `for (let i = 0; i < times; i++)` walk loop, carrying
the progress values emitted through `onProgress` so far. -/
inductive RunOut where
  | diverged : RunOut
  | crashed : List ℚ → RunOut
  | ok : ℚ → ℚ → ℕ → List ℚ → RunOut
deriving DecidableEq, Repr

/-- Prepend a progress value to the emission list of a loop outcome when
the emission condition holds. -/
def RunOut.addProg (emit : Prop) [Decidable emit] (pr : ℚ) : RunOut → RunOut
  | .diverged => .diverged
  | .crashed L => .crashed (if emit then pr :: L else L)
  | .ok a b k L => .ok a b k (if emit then pr :: L else L)

/-- The walk loop of `abwalkVSpJS`: `rem` walks remaining out of `times`,
`i` walks already done.  After walk `i` finishes, progress
`base + ((i+1)/times)*50` is emitted when `(i+1)` is a multiple of
`max(1, Math.floor(times/20))` (`base` is 0 for the loop from `s` and 50
for the loop from `t`). -/
def runWalksJS (arcs : Arcs) (s t v start : ℕ) (ρ : ℕ → ℚ) (wfuel times : ℕ) (base : ℚ) :
    ℕ → ℕ → ℕ → ℚ → ℚ → RunOut
  | 0, _, k, cs, ct => .ok cs ct k []
  | rem + 1, i, k, cs, ct =>
    match walkJS arcs s t v ρ wfuel (some start) k cs ct with
    | .diverged => .diverged
    | .crashed => .crashed []
    | .ok cs' ct' k' =>
      RunOut.addProg ((i + 1) % max 1 (times / 20) = 0)
        (base + ((i + 1 : ℕ) : ℚ) / (times : ℚ) * 50)
        (runWalksJS arcs s t v start ρ wfuel times base rem (i + 1) k' cs' ct')

/-- The final combination of `abwalkVSpJS` (and of the C++ `abwalkVSp`):
`tauss/(degree[s]*times) - taust/(degree[t]*times) - tauts/(degree[s]*times)
+ tautt/(degree[t]*times)`, with JavaScript division semantics. -/
def abwalkCombine (arcs : Arcs) (s t times : ℕ) (tauss taust tauts tautt : ℚ) : JsNum :=
  JsNum.add
    (JsNum.sub
      (JsNum.sub (jsDivQ tauss (degQ arcs s * times)) (jsDivQ taust (degQ arcs t * times)))
      (jsDivQ tauts (degQ arcs s * times)))
    (jsDivQ tautt (degQ arcs t * times))

/-- Overall outcome of `abwalkVSpJS`. -/
inductive AbwalkOut where
  | diverged : AbwalkOut
  | crashed : List ℚ → AbwalkOut
  | ok : JsNum → List ℚ → AbwalkOut
deriving DecidableEq, Repr

/-- `abwalkVSpJS(graph, {s, t, v, times})`: `times` absorbed walks from
`s` (counting `tauss`/`taust`), `times` walks from `t` (counting
`tauts`/`tautt`), then the combination formula.  `ρ` is the ambient
`Math.random()` stream, consumed from index `k0`; the function has **no
seed parameter**, exactly like the source. -/
def abwalkVSpJS (wfuel : ℕ) (arcs : Arcs) (s t v times : ℕ) (ρ : ℕ → ℚ) (k0 : ℕ) :
    AbwalkOut :=
  match runWalksJS arcs s t v s ρ wfuel times 0 times 0 k0 0 0 with
  | .diverged => .diverged
  | .crashed L1 => .crashed L1
  | .ok tauss taust k1 L1 =>
    match runWalksJS arcs s t v t ρ wfuel times 50 times 0 k1 0 0 with
    | .diverged => .diverged
    | .crashed L2 => .crashed (L1 ++ L2)
    | .ok tauts tautt _ L2 =>
      .ok (abwalkCombine arcs s t times tauss taust tauts tautt) (L1 ++ L2)

/-- The estimator never returns: for every fuel bound (and stream start
index) the embedded computation is still in its walk loop — the model of
an infinite loop. -/
def abwalkVSpJSNeverReturns (arcs : Arcs) (s t v times : ℕ) (ρ : ℕ → ℚ) : Prop :=
  ∀ wfuel k0, abwalkVSpJS wfuel arcs s t v times ρ k0 = AbwalkOut.diverged

/-- A graph whose only edge is the self-loop at node 0; the landmark 1 is
unreachable from 0. -/
def gLoop : Arcs := [(0, 0)]

/-- A single edge 0–1 together with the landmark node 2 in a separate
component (self-loop at 2). -/
def gPair : Arcs := [(0, 1), (1, 0), (2, 2)]

/-! ## Seeding: the C++ `abwalkVSp`, the worker, and claim C3 -/

/-- A path 0–1–2. -/
def gPath : Arcs := [(0, 1), (1, 0), (1, 2), (2, 1)]

/-- A `Math.random()` stream that sends the walk back from node 1 to
node 0 once before letting it reach the landmark. -/
def rhoA : ℕ → ℚ := fun k => if k = 1 then 0 else 1/2

/-- The constant stream 1/2. -/
def rhoB : ℕ → ℚ := fun _ => 1/2

/-- The `rand()` state update of musl libc (the C library Emscripten
links against): a 64-bit linear congruential generator.  Modelled
external dependency: `srand`/`rand` are not part of the repository. -/
def muslRandStep (st : ℕ) : ℕ := (st * 6364136223846793005 + 1) % 2 ^ 64

/-- The `rand()` return value: the upper 31 bits of the state. -/
def muslRandOut (st : ℕ) : ℕ := st / 2 ^ 33

/-- `srand(seed)`: the state becomes `seed - 1` as an unsigned 64-bit
value. -/
def muslSrand (seed : ℕ) : ℕ := (seed + 2 ^ 64 - 1) % 2 ^ 64

/-- One absorbed walk of the C++ `abwalkVSp`: next node is
`neighbors[rand() % neighbors.size()]`, with the generator state threaded
explicitly. -/
def walkCpp (arcs : Arcs) (s t v : ℕ) :
    ℕ → ℕ → ℕ → ℚ → ℚ → Option (ℚ × ℚ × ℕ)
  | 0, _, _, _, _ => none
  | fuel + 1, u, st, cs, ct =>
    if u = v then some (cs, ct, st)
    else
      walkCpp arcs s t v fuel
        ((adj arcs u).getD (muslRandOut (muslRandStep st) % (adj arcs u).length) 0)
        (muslRandStep st)
        (if u = s then cs + 1 else cs)
        (if u = t then ct + 1 else ct)

/-- The `for (int i = 0; i < times; i++)` loop of the C++ `abwalkVSp`. -/
def runWalksCpp (arcs : Arcs) (s t v start : ℕ) (wfuel : ℕ) :
    ℕ → ℕ → ℚ → ℚ → Option (ℚ × ℚ × ℕ)
  | 0, st, cs, ct => some (cs, ct, st)
  | rem + 1, st, cs, ct =>
    match walkCpp arcs s t v wfuel start st cs ct with
    | none => none
    | some r => runWalksCpp arcs s t v start wfuel rem r.2.2 r.1 r.2.1

/-- `abwalkVSp` of `resistance.cpp`: `srand(seed)`, the two walk loops,
then the combination formula.  The seed is an explicit parameter and the
only source of randomness. -/
def abwalkVSpCpp (wfuel : ℕ) (arcs : Arcs) (s t v times seed : ℕ) : Option JsNum := do
  let r1 ← runWalksCpp arcs s t v s wfuel times (muslSrand seed) 0 0
  let r2 ← runWalksCpp arcs s t v t wfuel times r1.2.2 0 0
  pure (abwalkCombine arcs s t times r1.1 r1.2.1 r2.1 r2.2.1)

/-- The per-invocation seed drawn by `executeAbwalkVSpWASM` in the
worker: `Math.floor(Math.random() * 0xFFFFFFFF)` — the first value of the
ambient stream, not a caller-supplied input. -/
def workerSeed (ρ : ℕ → ℚ) : ℕ := (⌊ρ 0 * 4294967295⌋).toNat

/-- The result computed by `executeAbwalkVSpWASM` on its success path:
the C++ `abwalkVSp` applied to the explicitly drawn seed. -/
def executeAbwalkVSpWASMResult (wfuel : ℕ) (arcs : Arcs) (s t v times : ℕ)
    (ρ : ℕ → ℚ) : Option JsNum :=
  abwalkVSpCpp wfuel arcs s t v times (workerSeed ρ)

/-- The constant-zero stream. -/
def rhoC : ℕ → ℚ := fun _ => 0

/-- A stream that agrees with `rhoC` only at index 0. -/
def rhoD : ℕ → ℚ := fun k => if k = 0 then 0 else 1

/-! ## Worker message traces (`handleCompute`, claim C7) -/

/-- A message posted by the worker for one task: `PROGRESS`, `RESULT`, or
`ERROR` (the payload of an error message is irrelevant to the claims). -/
inductive Msg where
  | progress : ℚ → Msg
  | result : JsNum → Msg
  | error : Msg
deriving DecidableEq, Repr

/-- The progress values of a message list, in delivery order. -/
def progressValues (msgs : List Msg) : List ℚ :=
  msgs.filterMap (fun m => match m with | .progress q => some q | _ => none)

/-- `executePushVSpJS` as observed through its messages: the progress
callback posts 25 after every 100 pushes of the first phase, 75 after
every 100 pushes of the second, then 100 unconditionally; the value is
the combination result. -/
def pushVSpJSWithProg (fuel : ℕ) (arcs : Arcs) (s t v : ℕ) (rmax : ℚ) :
    Option (List ℚ × JsNum) := do
  let phs ← pushPhaseJS arcs v rmax s fuel
  let pht ← pushPhaseJS arcs v rmax t fuel
  pure (List.replicate (phs.2 / 100) 25 ++ List.replicate (pht.2 / 100) 75 ++ [100],
    pushCombine arcs s t phs.1 pht.1)

/-- Worker algorithm tags (`push-v-sp-js`, `abwalk-v-sp-js`,
`push-v-sp-wasm`, `abwalk-v-sp-wasm`). -/
inductive Alg where
  | pushJS : Alg
  | abwalkJS : Alg
  | pushWasm : Alg
  | abwalkWasm : Alg
deriving DecidableEq, Repr

/-- Outcome of the foreign WASM call inside `executePushVSpWASM` /
`executeAbwalkVSpWASM`: success; failure before the 50% progress message
was posted (e.g. the module failed to load); or failure after it (e.g.
the exported function trapped).  In both failure cases the worker catches
the error and falls back to the JS implementation. -/
inductive WasmOutcome where
  | ok : WasmOutcome
  | failBeforeProgress : WasmOutcome
  | failAfterProgress : WasmOutcome
deriving DecidableEq, Repr

/-- The full message sequence `handleCompute` posts for one task
(progress messages during the computation, then exactly one terminal
`RESULT`/`ERROR`).  `none` models a computation that never finishes
within the fuel.  On `abwalk-v-sp-wasm` the drawn seed consumes `ρ 0`,
so the JS fallback after a post-progress failure starts reading the
ambient stream at index 1. -/
def handleComputeMsgs (alg : Alg) (wout : WasmOutcome) (fuel wfuel : ℕ) (arcs : Arcs)
    (s t v : ℕ) (rmax : ℚ) (times : ℕ) (ρ : ℕ → ℚ) : Option (List Msg) :=
  match alg with
  | .pushJS =>
    match pushVSpJSWithProg fuel arcs s t v rmax with
    | none => none
    | some pr => some (pr.1.map Msg.progress ++ [Msg.result pr.2])
  | .abwalkJS =>
    match abwalkVSpJS wfuel arcs s t v times ρ 0 with
    | .diverged => none
    | .crashed L => some (L.map Msg.progress ++ [Msg.error])
    | .ok r L => some (L.map Msg.progress ++ [Msg.result r])
  | .pushWasm =>
    match wout with
    | .ok =>
      match pushVSpCpp fuel arcs s t v rmax with
      | none => none
      | some r => some [Msg.progress 50, Msg.result r]
    | .failBeforeProgress =>
      match pushVSpJSWithProg fuel arcs s t v rmax with
      | none => none
      | some pr => some (pr.1.map Msg.progress ++ [Msg.result pr.2])
    | .failAfterProgress =>
      match pushVSpJSWithProg fuel arcs s t v rmax with
      | none => none
      | some pr => some (Msg.progress 50 :: (pr.1.map Msg.progress ++ [Msg.result pr.2]))
  | .abwalkWasm =>
    match wout with
    | .ok =>
      match abwalkVSpCpp wfuel arcs s t v times (workerSeed ρ) with
      | none => none
      | some r => some [Msg.progress 50, Msg.result r]
    | .failBeforeProgress =>
      match abwalkVSpJS wfuel arcs s t v times ρ 0 with
      | .diverged => none
      | .crashed L => some (L.map Msg.progress ++ [Msg.error])
      | .ok r L => some (L.map Msg.progress ++ [Msg.result r])
    | .failAfterProgress =>
      match abwalkVSpJS wfuel arcs s t v times ρ 1 with
      | .diverged => none
      | .crashed L => some (Msg.progress 50 :: (L.map Msg.progress ++ [Msg.error]))
      | .ok r L => some (Msg.progress 50 :: (L.map Msg.progress ++ [Msg.result r]))

/-- The progress list collected so far in a loop outcome. -/
def RunOut.prog : RunOut → List ℚ
  | .diverged => []
  | .crashed L => L
  | .ok _ _ _ L => L

/-- The progress list carried by an estimator outcome. -/
def AbwalkOut.prog : AbwalkOut → List ℚ
  | .diverged => []
  | .crashed L => L
  | .ok _ L => L

/-! ## The main-thread harness (`useResistanceWorker`, claim C4) -/

/-- Kind of a worker-to-main message (`WorkerResult.type`). -/
inductive WKind where
  | result : WKind
  | error : WKind
  | progress : WKind
deriving DecidableEq, Repr

/-- An event at the hook: the caller starts a computation (`compute`
registers the taskId in `tasksRef` and posts COMPUTE), cancels one
(`cancel` posts CANCEL — which the worker's handler ignores — and deletes
the taskId from `tasksRef`), or a worker message for some taskId arrives
at `worker.onmessage`. -/
inductive HEvent where
  | compute : ℕ → HEvent
  | cancel : ℕ → HEvent
  | workerMsg : WKind → ℕ → HEvent
deriving DecidableEq, Repr

/-- A delivery: one of the task's callbacks
(`onResult`/`onError`/`onProgress`) being invoked. -/
structure Delivery where
  id : ℕ
  kind : WKind
deriving DecidableEq, Repr

/-- One step of the hook.  `tasks` is the key multiset of `tasksRef`: a
worker message whose taskId is not registered is dropped
(`if (!task) return`); RESULT and ERROR deliveries also delete the
task. -/
def hookStep (tasks : List ℕ) : HEvent → List ℕ × List Delivery
  | .compute id => (id :: tasks, [])
  | .cancel id => (tasks.filter (fun x => x ≠ id), [])
  | .workerMsg kind id =>
    if id ∈ tasks then
      match kind with
      | .result => (tasks.filter (fun x => x ≠ id), [⟨id, .result⟩])
      | .error => (tasks.filter (fun x => x ≠ id), [⟨id, .error⟩])
      | .progress => (tasks, [⟨id, .progress⟩])
    else (tasks, [])

/-- Run the hook over a sequence of events, collecting all deliveries in
order. -/
def hookRun (tasks : List ℕ) : List HEvent → List ℕ × List Delivery
  | [] => (tasks, [])
  | e :: evs =>
    ((hookRun (hookStep tasks e).1 evs).1,
      (hookStep tasks e).2 ++ (hookRun (hookStep tasks e).1 evs).2)

/-! ## Error metrics (`src/utils/errorMetrics.ts`, claim C8) -/

/-- `calculateAbsoluteError`: `Math.abs(result - groundTruth)`. -/
def calculateAbsoluteError (result groundTruth : ℚ) : ℚ := |result - groundTruth|

/-- `calculateRelativeError`: returns `Infinity` when
`Math.abs(groundTruth) < 1e-10`, otherwise the quotient. -/
def calculateRelativeError (result groundTruth : ℚ) : JsNum :=
  if |groundTruth| < 1 / 10 ^ 10 then JsNum.inf
  else JsNum.num (|result - groundTruth| / |groundTruth|)

/-- The `{absolute, relative}` record returned by
`calculateErrorMetrics`. -/
structure ErrorMetrics where
  absolute : ℚ
  relative : JsNum
deriving DecidableEq, Repr

/-- `calculateErrorMetrics`: both metrics at once. -/
def calculateErrorMetrics (result groundTruth : ℚ) : ErrorMetrics :=
  { absolute := calculateAbsoluteError result groundTruth,
    relative := calculateRelativeError result groundTruth }

/-! ## The edge-list parser (`parseEdgeList` in `src/utils/graphParser.ts`,
claim C10)

JavaScript strings are modelled as `List Char`; `content.split('\n')`,
`String.prototype.trim`, `line.startsWith('#')`, `line.split(/\s+/)` and
`parseInt(·, 10)` are modelled by the structurally recursive functions
below. -/

/-- `content.split('\n')` (accumulator holds the current line reversed). -/
def splitLinesAux : List Char → List Char → List (List Char)
  | [], acc => [acc.reverse]
  | c :: rest, acc =>
    if c = '\n' then acc.reverse :: splitLinesAux rest []
    else splitLinesAux rest (c :: acc)

/-- `String.prototype.trim`: strip whitespace from both ends. -/
def trimChars (l : List Char) : List Char :=
  ((l.dropWhile (fun c => c.isWhitespace)).reverse.dropWhile
    (fun c => c.isWhitespace)).reverse

/-- `content.split('\n').map(line => line.trim())`. -/
def linesOf (content : List Char) : List (List Char) :=
  (splitLinesAux content []).map trimChars

/-- `line.startsWith('#')`. -/
def startsWithHash : List Char → Bool
  | '#' :: _ => true
  | _ => false

/-- `line.split(/\s+/)` on an already-trimmed line: maximal runs of
non-whitespace characters. -/
def splitWSAux : List Char → List Char → List (List Char)
  | [], acc => if acc.isEmpty then [] else [acc.reverse]
  | c :: rest, acc =>
    if c.isWhitespace then
      if acc.isEmpty then splitWSAux rest []
      else acc.reverse :: splitWSAux rest []
    else splitWSAux rest (c :: acc)

/-- The token list of a line. -/
def splitWS (l : List Char) : List (List Char) := splitWSAux l []

/-- The numeric value of the leading digit run, `none` when the first
character is not a digit. -/
def digitsVal (l : List Char) : Option ℕ :=
  match l.takeWhile (fun c => c.isDigit) with
  | [] => none
  | ds => some (ds.foldl (fun acc c => acc * 10 + (c.toNat - '0'.toNat)) 0)

/-- `parseInt(s, 10)`: optional sign, then the leading digit run;
`NaN` (modelled as `none`) when no digits follow. -/
def jsParseInt : List Char → Option ℤ
  | '-' :: rest => (digitsVal rest).map (fun n => -(n : ℤ))
  | '+' :: rest => (digitsVal rest).map (fun n => (n : ℤ))
  | l => (digitsVal l).map (fun n => (n : ℤ))

/-- The parser's loop state: collected arcs, declared metadata, observed
id range, current line number, and the
`firstDataLineProcessed` flag. -/
structure PState where
  edges : List (ℤ × ℤ)
  declaredN : Option ℤ
  declaredM : Option ℤ
  minId : Option ℤ
  maxId : Option ℤ
  lineNumber : ℕ
  firstData : Bool
deriving DecidableEq, Repr

/-- `Math.min` fold over an optional running minimum (`Infinity` start). -/
def optMin (o : Option ℤ) (z : ℤ) : Option ℤ :=
  match o with
  | none => some z
  | some m => some (min m z)

/-- `Math.max` fold over an optional running maximum (`-Infinity` start). -/
def optMax (o : Option ℤ) (z : ℤ) : Option ℤ :=
  match o with
  | none => some z
  | some m => some (max m z)

/-- The metadata test of `parseEdgeList`: on a yet-unprocessed first data
line of exactly two tokens, both parsing to positive integers. -/
def metaCheck (firstData : Bool) (parts : List (List Char)) : Option (ℤ × ℤ) :=
  if firstData = false ∧ parts.length = 2 then
    match jsParseInt (parts.getD 0 []), jsParseInt (parts.getD 1 []) with
    | some a, some b => if 0 < a ∧ 0 < b then some (a, b) else none
    | _, _ => none
  else none

/-- One iteration of the `for (const line of lines)` loop of
`parseEdgeList`: bump the line counter, skip blank and comment lines,
consume the metadata line, otherwise parse an edge (adding both
directions unless it is a self-loop). -/
def processLine (st0 : PState) (line : List Char) : Except String PState :=
  let st := { st0 with lineNumber := st0.lineNumber + 1 }
  if line.isEmpty then .ok st
  else if startsWithHash line then .ok st
  else
    let parts := splitWS line
    match metaCheck st.firstData parts with
    | some ab =>
      .ok { st with declaredN := some ab.1, declaredM := some ab.2, firstData := true }
    | none =>
      let st1 := { st with firstData := true }
      if parts.length ≠ 2 then
        .error ("Invalid edge format at line " ++ toString st1.lineNumber
          ++ ": expected 2 numbers, got " ++ toString parts.length)
      else
        match jsParseInt (parts.getD 0 []), jsParseInt (parts.getD 1 []) with
        | some src, some tgt =>
          if src < 0 ∨ tgt < 0 then
            .error ("Invalid node IDs at line " ++ toString st1.lineNumber
              ++ ": negative IDs not allowed")
          else
            .ok { st1 with
              edges := st1.edges ++
                (if src ≠ tgt then [(src, tgt), (tgt, src)] else [(src, tgt)]),
              minId := optMin (optMin st1.minId src) tgt,
              maxId := optMax (optMax st1.maxId src) tgt }
        | _, _ =>
          .error ("Invalid node IDs at line " ++ toString st1.lineNumber
            ++ ": could not parse as integers")

/-- The parsed-graph record of `parseEdgeList`. -/
structure ParsedGraphR where
  nodes : ℤ
  edges : List (ℤ × ℤ)
  isDirected : Bool
  wasOneBased : Bool
  originalMaxNodeId : ℤ
deriving DecidableEq, Repr

/-- The tail of `parseEdgeList` after the line loop: throw on an empty
edge list, detect 1-based ids (minimum observed id is 1), convert ids
and compute the node count. -/
def finishParse (st : PState) : Except String ParsedGraphR :=
  if st.edges.isEmpty then .error "No edges found in the file"
  else
    let wasOneBased := st.minId = some 1
    let maxId := (st.maxId).getD 0
    let edges := if wasOneBased then st.edges.map (fun e => (e.1 - 1, e.2 - 1)) else st.edges
    let maxId1 := if wasOneBased then maxId - 1 else maxId
    Except.ok
      { nodes := maxId1 + 1
        edges := edges
        isDirected := false
        wasOneBased := wasOneBased
        originalMaxNodeId := if wasOneBased then maxId1 + 1 else maxId1 }

/-- The initial parser state. -/
def initPState : PState :=
  { edges := [], declaredN := none, declaredM := none, minId := none,
    maxId := none, lineNumber := 0, firstData := false }

/-- `parseEdgeList(content)`. -/
def parseEdgeList (content : List Char) : Except String ParsedGraphR :=
  match (linesOf content).foldlM processLine initPState with
  | .error e => .error e
  | .ok st => finishParse st

/-! ## Theorems -/

theorem deg_eq_length_adj (arcs : Arcs) (u : ℕ) : deg arcs u = (adj arcs u).length := by
  simp [deg, adj]

theorem jsDivQ_of_ne_zero (a : ℚ) {b : ℚ} (hb : b ≠ 0) : jsDivQ a b = JsNum.num (a / b) := by
  simp [jsDivQ, hb]

theorem add_num_num (a b : ℚ) : JsNum.add (JsNum.num a) (JsNum.num b) = JsNum.num (a + b) := rfl

theorem sub_num_num (a b : ℚ) : JsNum.sub (JsNum.num a) (JsNum.num b) = JsNum.num (a - b) := by
  simp [JsNum.sub, JsNum.neg, JsNum.add, sub_eq_add_neg]

theorem nan_add (b : JsNum) : JsNum.add JsNum.nan b = JsNum.nan := by
  cases b <;> rfl

theorem sub_nan (a : JsNum) : JsNum.sub a JsNum.nan = JsNum.nan := by
  cases a <;> rfl

theorem nan_sub (b : JsNum) : JsNum.sub JsNum.nan b = JsNum.nan := by
  cases b <;> rfl

theorem adj_eq_nil_of_deg_zero {arcs : Arcs} {u : ℕ} (h : deg arcs u = 0) :
    adj arcs u = [] := by
  rw [deg] at h
  rw [adj, List.length_eq_zero.mp h]
  rfl

theorem pushLoopJS_nil_queue (arcs : Arcs) (v : ℕ) (rmax : ℚ) (fuel : ℕ)
    (r p : ℕ → ℚ) (inq : ℕ → Bool) (cnt : ℕ) :
    pushLoopJS arcs v rmax fuel ⟨r, p, [], inq⟩ cnt = some (p, cnt) := by
  cases fuel <;> rfl

/-- A push phase seeded at an isolated node `s ≠ v` performs exactly one
push: it settles the unit residual at `s` and stops. -/
theorem pushPhaseJS_isolated {arcs : Arcs} {s v : ℕ} (rmax : ℚ)
    (hadj : adj arcs s = []) (hsv : s ≠ v) (fuel : ℕ) :
    pushPhaseJS arcs v rmax s (fuel + 1) =
      some (fun x => if x = s then 1 else 0, 1) := by
  unfold pushPhaseJS
  rw [if_neg hsv]
  show pushLoopJS _ _ _ (fuel + 1) _ 0 = _
  unfold pushLoopJS
  simp only [hadj, pushNeighborsJS]
  rw [pushLoopJS_nil_queue]
  refine congrArg some (Prod.ext ?_ rfl)
  funext x
  by_cases hx : x = s <;> simp [hx]

theorem pushPhaseJS_seed_eq_v {arcs : Arcs} {s v : ℕ} (rmax : ℚ) (hsv : s = v) (fuel : ℕ) :
    pushPhaseJS arcs v rmax s fuel = some (fun _ => 0, 0) := by
  unfold pushPhaseJS
  rw [if_pos hsv]
  exact pushLoopJS_nil_queue ..

theorem pushPhaseJS_zero_fuel_ne_v {arcs : Arcs} {s v : ℕ} (rmax : ℚ) (hsv : s ≠ v) :
    pushPhaseJS arcs v rmax s 0 = none := by
  unfold pushPhaseJS
  rw [if_neg hsv]
  rfl

/-- C2, counterexample: with the isolated node 0 as `s` (and `t = 1`,
`v = 2`), `pushVSpJS` does not fail with a domain error — it returns the
value `NaN` (the phase loops finish well within 5 iterations, so `some`
is the genuine outcome of the code, not a fuel artifact). -/
theorem C2_counterexample :
    pushVSpJS 5 gIsolated 0 1 2 (1/10) = some JsNum.nan := by
  norm_num [pushVSpJS, pushPhaseJS, pushLoopJS, pushNeighborsJS, adj, degQ, deg,
    gIsolated, pushCombine, jsDivQ, JsNum.sub, JsNum.add, JsNum.neg, List.filter]

/-- C2, amended: neither implementation checks degrees; when
`degree(s) = 0`, `pushVSpJS` silently returns `NaN` whenever its loops
finish (JavaScript division-by-zero semantics), never a domain error. -/
theorem C2_push_nan_on_zero_degree (fuel : ℕ) (arcs : Arcs) (s t v : ℕ) (rmax : ℚ)
    (h : deg arcs s = 0) :
    pushVSpJS fuel arcs s t v rmax = some JsNum.nan ∨
      pushVSpJS fuel arcs s t v rmax = none := by
  have hadj : adj arcs s = [] := adj_eq_nil_of_deg_zero h
  have hdq : degQ arcs s = 0 := by simp [degQ, h]
  by_cases hsv : s = v
  · rcases hph : pushPhaseJS arcs v rmax t fuel with _ | pht
    · right
      simp [pushVSpJS, pushPhaseJS_seed_eq_v rmax hsv, hph]
    · left
      simp [pushVSpJS, pushPhaseJS_seed_eq_v rmax hsv, hph, pushCombine, hdq,
        jsDivQ, nan_add, nan_sub]
  · cases fuel with
    | zero =>
      right
      simp [pushVSpJS, pushPhaseJS_zero_fuel_ne_v rmax hsv]
    | succ f =>
      by_cases ht : t = s
      · subst ht
        left
        simp only [pushVSpJS, pushPhaseJS_isolated rmax hadj hsv f, Option.bind_eq_bind,
          Option.some_bind, pushCombine, pure]
        norm_num [hdq, jsDivQ, JsNum.sub, JsNum.add, JsNum.neg]
      · rcases hph : pushPhaseJS arcs v rmax t (f + 1) with _ | pht
        · right
          simp [pushVSpJS, pushPhaseJS_isolated rmax hadj hsv f, hph]
        · left
          have hts : ¬ (t = s) := ht
          simp only [pushVSpJS, pushPhaseJS_isolated rmax hadj hsv f, hph,
            Option.bind_eq_bind, Option.some_bind, pushCombine, pure]
          norm_num [hdq, hts, jsDivQ, sub_nan, nan_sub]

/-- C2, witness for the amended theorem at a concrete input. -/
theorem C2_witness :
    deg gIsolated 0 = 0 ∧
      (pushVSpJS 7 gIsolated 0 1 2 (1/10) = some JsNum.nan ∨
        pushVSpJS 7 gIsolated 0 1 2 (1/10) = none) := by
  refine ⟨by norm_num [deg, gIsolated, List.filter], ?_⟩
  exact C2_push_nan_on_zero_degree 7 gIsolated 0 1 2 (1/10)
    (by norm_num [deg, gIsolated, List.filter])

/-- C6, counterexample: on a graph where `s = t = 0` is isolated, the push
estimator returns `NaN`, not `0`, so `Push(s, s, v, rmax) == 0` does not
hold for *every* graph. -/
theorem C6_counterexample :
    pushVSpJS 5 gIsolated 0 0 2 (1/10) = some JsNum.nan ∧
      JsNum.nan ≠ JsNum.num 0 := by
  constructor
  · norm_num [pushVSpJS, pushPhaseJS, pushLoopJS, pushNeighborsJS, adj, degQ, deg,
      gIsolated, pushCombine, jsDivQ, JsNum.sub, JsNum.add, JsNum.neg, List.filter]
  · simp

/-- C6, amended: for every graph, landmark `v` and `rmax`, provided
`degree(s) ≠ 0`, the push estimator with identical source and target
returns exactly zero whenever its loops finish: both phases are the same
computation, so the combination telescopes to `0`. -/
theorem C6_push_self_distance_zero (fuel : ℕ) (arcs : Arcs) (s v : ℕ) (rmax : ℚ)
    (h : deg arcs s ≠ 0) :
    pushVSpJS fuel arcs s s v rmax = some (JsNum.num 0) ∨
      pushVSpJS fuel arcs s s v rmax = none := by
  have hdq : degQ arcs s ≠ 0 := by
    simpa [degQ] using Nat.cast_ne_zero.mpr h
  rcases hph : pushPhaseJS arcs v rmax s fuel with _ | p
  · right
    simp [pushVSpJS, hph]
  · left
    simp only [pushVSpJS, hph, Option.bind_eq_bind, Option.some_bind, pushCombine, pure]
    rw [jsDivQ_of_ne_zero _ hdq]
    simp only [add_num_num, sub_num_num]
    refine congrArg some (congrArg JsNum.num ?_)
    ring

/-- C6, witness for the amended theorem at a concrete input. -/
theorem C6_witness :
    deg gEdge 0 ≠ 0 ∧
      (pushVSpJS 3 gEdge 0 0 1 (1/2) = some (JsNum.num 0) ∨
        pushVSpJS 3 gEdge 0 0 1 (1/2) = none) := by
  refine ⟨by norm_num [deg, gEdge, List.filter], ?_⟩
  exact C6_push_self_distance_zero 3 gEdge 0 1 (1/2)
    (by norm_num [deg, gEdge, List.filter])

theorem pushNeighborsJS_eq_spec (arcs : Arcs) (v : ℕ) (rmax : ℚ) (u : ℕ) :
    ∀ (l : List ℕ) (r : ℕ → ℚ) (q : List ℕ) (inq : ℕ → Bool),
      pushNeighborsJS arcs v rmax u l r q inq = specPushNeighbors arcs v rmax u l (r, q, inq) := by
  intro l
  induction l with
  | nil => intro r q inq; rfl
  | cons nei rest ih =>
    intro r q inq
    rw [pushNeighborsJS, specPushNeighbors, List.foldl_cons]
    by_cases hv : nei = v
    · rw [if_pos hv, if_pos hv, ih]
      rfl
    · rw [if_neg hv, if_neg hv]
      by_cases hc : inq nei = false ∧
          degQ arcs nei * rmax < (fun x => if x = nei then r nei + r u / degQ arcs u else r x) nei
      · rw [if_pos hc, if_pos (And.intro hc.2 hc.1), ih]
        rfl
      · rw [if_neg hc, if_neg (fun hc2 => hc (And.intro hc2.2 hc2.1)), ih]
        rfl

theorem pushLoopJS_eq_spec (arcs : Arcs) (v : ℕ) (rmax : ℚ) :
    ∀ (fuel : ℕ) (r p : ℕ → ℚ) (q : List ℕ) (inq : ℕ → Bool) (cnt : ℕ),
      (pushLoopJS arcs v rmax fuel ⟨r, p, q, inq⟩ cnt).map Prod.fst =
        specPushLoop arcs v rmax fuel r p q inq := by
  intro fuel
  induction fuel with
  | zero =>
    intro r p q inq cnt
    cases q <;> rfl
  | succ f ih =>
    intro r p q inq cnt
    cases q with
    | nil => rfl
    | cons u rest =>
      simp only [pushLoopJS, specPushLoop]
      rw [pushNeighborsJS_eq_spec]
      exact ih ..

theorem pushPhaseJS_eq_spec (arcs : Arcs) (v : ℕ) (rmax : ℚ) (seed fuel : ℕ) :
    (pushPhaseJS arcs v rmax seed fuel).map Prod.fst = specPushPhase arcs v rmax seed fuel := by
  unfold pushPhaseJS specPushPhase
  by_cases hv : seed = v
  · rw [if_pos hv, if_pos hv, pushLoopJS_eq_spec]
  · rw [if_neg hv, if_neg hv, pushLoopJS_eq_spec]

/-- C5: with nonzero degrees at `s` and `t`, `pushVSpJS` returns exactly
`settled_from_s[s]/degree(s) + settled_from_t[t]/degree(t) −
settled_from_s[t]/degree(s) − settled_from_t[s]/degree(t)` where the two
settled vectors are produced by the specification's push phases. -/
theorem C5_push_matches_spec_phases (fuel : ℕ) (arcs : Arcs) (s t v : ℕ) (rmax : ℚ)
    (hs : deg arcs s ≠ 0) (ht : deg arcs t ≠ 0) :
    pushVSpJS fuel arcs s t v rmax =
      (specPushPhase arcs v rmax s fuel).bind (fun ps =>
        (specPushPhase arcs v rmax t fuel).map (fun pt =>
          JsNum.num (ps s / degQ arcs s + pt t / degQ arcs t
            - ps t / degQ arcs s - pt s / degQ arcs t))) := by
  have hdqs : degQ arcs s ≠ 0 := by simpa [degQ] using Nat.cast_ne_zero.mpr hs
  have hdqt : degQ arcs t ≠ 0 := by simpa [degQ] using Nat.cast_ne_zero.mpr ht
  rw [← pushPhaseJS_eq_spec, ← pushPhaseJS_eq_spec]
  rcases hps : pushPhaseJS arcs v rmax s fuel with _ | ps
  · simp [pushVSpJS, hps]
  · rcases hpt : pushPhaseJS arcs v rmax t fuel with _ | pt
    · simp [pushVSpJS, hps, hpt]
    · simp only [pushVSpJS, hps, hpt, Option.bind_eq_bind, Option.some_bind,
        Option.map_some', pushCombine, pure]
      rw [jsDivQ_of_ne_zero _ hdqs, jsDivQ_of_ne_zero _ hdqt,
        jsDivQ_of_ne_zero _ hdqs, jsDivQ_of_ne_zero _ hdqt,
        add_num_num, sub_num_num, sub_num_num]

/-- C5, witness: a concrete run on the single-edge graph. -/
theorem C5_witness :
    deg gEdge 0 ≠ 0 ∧ deg gEdge 1 ≠ 0 ∧
      pushVSpJS 4 gEdge 0 1 1 (1/2) =
        (specPushPhase gEdge 1 (1/2) 0 4).bind (fun ps =>
          (specPushPhase gEdge 1 (1/2) 1 4).map (fun pt =>
            JsNum.num (ps 0 / degQ gEdge 0 + pt 1 / degQ gEdge 1
              - ps 1 / degQ gEdge 0 - pt 0 / degQ gEdge 1))) := by
  refine ⟨by norm_num [deg, gEdge, List.filter], by norm_num [deg, gEdge, List.filter], ?_⟩
  exact C5_push_matches_spec_phases 4 gEdge 0 1 1 (1/2)
    (by norm_num [deg, gEdge, List.filter]) (by norm_num [deg, gEdge, List.filter])

theorem list_getD_eq_headD_drop : ∀ (l : List ℕ) (n : ℕ), l.getD n 0 = (l.drop n).headD 0 := by
  intro l
  induction l with
  | nil => intro n; cases n <;> rfl
  | cons x xs ih =>
    intro n
    cases n with
    | zero => rfl
    | succ m => exact ih m

theorem pushNeighborsCpp_eq_js (arcs : Arcs) (v : ℕ) (rmax : ℚ) (u : ℕ) :
    ∀ (l : List ℕ) (r : ℕ → ℚ) (jsq : List ℕ) (inq : ℕ → Bool) (cq : SimpleQueue),
      QRel jsq inq cq →
      (pushNeighborsJS arcs v rmax u l r jsq inq).1 = (pushNeighborsCpp arcs v rmax u l r cq).1 ∧
        QRel (pushNeighborsJS arcs v rmax u l r jsq inq).2.1
          (pushNeighborsJS arcs v rmax u l r jsq inq).2.2
          (pushNeighborsCpp arcs v rmax u l r cq).2 := by
  intro l
  induction l with
  | nil => intro r jsq inq cq hrel; exact ⟨rfl, hrel⟩
  | cons nei rest ih =>
    intro r jsq inq cq hrel
    obtain ⟨hlen, hq, hinq⟩ := hrel
    rw [pushNeighborsJS, pushNeighborsCpp]
    by_cases hv : nei = v
    · rw [if_pos hv, if_pos hv]
      exact ih r jsq inq cq ⟨hlen, hq, hinq⟩
    · rw [if_neg hv, if_neg hv]
      set r' : ℕ → ℚ := fun x => if x = nei then r nei + r u / degQ arcs u else r x with hr'
      by_cases hth : degQ arcs nei * rmax < r' nei
      · by_cases hmem : inq nei = false
        · rw [if_pos ⟨hmem, hth⟩, if_pos hth]
          refine ih r' (jsq ++ [nei]) _ (cq.push nei) ?_
          have hpush : cq.push nei =
              ⟨cq.data ++ [nei], cq.front, fun x => if x = nei then true else cq.inQ x⟩ := by
            rw [SimpleQueue.push, if_neg (by rw [← hinq, hmem]; exact Bool.false_ne_true)]
          rw [hpush]
          refine ⟨by simpa using Nat.le_succ_of_le hlen, ?_, ?_⟩
          · rw [List.drop_append_of_le_length hlen, hq]
          · funext x
            by_cases hx : x = nei <;> simp [hx, hinq]
        · rw [if_neg (fun hcon => hmem hcon.1), if_pos hth]
          refine ih r' jsq inq (cq.push nei) ?_
          have hpush : cq.push nei = cq := by
            rw [SimpleQueue.push, if_pos (by rw [← hinq]; exact Bool.of_not_eq_false hmem)]
          rw [hpush]
          exact ⟨hlen, hq, hinq⟩
      · rw [if_neg (fun hcon => hth hcon.2), if_neg hth]
        exact ih r' jsq inq cq ⟨hlen, hq, hinq⟩

theorem pushLoopCpp_eq_js (arcs : Arcs) (v : ℕ) (rmax : ℚ) :
    ∀ (fuel : ℕ) (r p : ℕ → ℚ) (jsq : List ℕ) (inq : ℕ → Bool) (cq : SimpleQueue) (cnt : ℕ),
      QRel jsq inq cq →
      (pushLoopJS arcs v rmax fuel ⟨r, p, jsq, inq⟩ cnt).map Prod.fst =
        pushLoopCpp arcs v rmax fuel r p cq := by
  intro fuel
  induction fuel with
  | zero =>
    intro r p jsq inq cq cnt hrel
    obtain ⟨hlen, hq, hinq⟩ := hrel
    cases hjsq : jsq with
    | nil =>
      have hemp : cq.isEmpty = true := by
        rw [SimpleQueue.isEmpty, decide_eq_true_eq, ← List.drop_eq_nil_iff, ← hq, hjsq]
      rw [pushLoopCpp, if_pos hemp]
      rfl
    | cons a l =>
      have hemp : cq.isEmpty = false := by
        rw [SimpleQueue.isEmpty, decide_eq_false_iff_not]
        intro hle
        have hnil : jsq = [] := by rw [hq]; exact List.drop_eq_nil_iff.mpr hle
        rw [hjsq] at hnil
        exact List.cons_ne_nil a l hnil
      rw [pushLoopCpp, if_neg (by rw [hemp]; exact Bool.false_ne_true)]
      rfl
  | succ f ih =>
    intro r p jsq inq cq cnt hrel
    obtain ⟨hlen, hq, hinq⟩ := hrel
    cases hjsq : jsq with
    | nil =>
      have hemp : cq.isEmpty = true := by
        rw [SimpleQueue.isEmpty, decide_eq_true_eq, ← List.drop_eq_nil_iff, ← hq, hjsq]
      rw [pushLoopCpp, if_pos hemp]
      rfl
    | cons u rest =>
      have hlt : cq.front < cq.data.length := by
        rcases Nat.lt_or_ge cq.front cq.data.length with h | h
        · exact h
        · have hnil : jsq = [] := by rw [hq]; exact List.drop_eq_nil_iff.mpr h
          rw [hjsq] at hnil
          exact absurd hnil (List.cons_ne_nil u rest)
      have hemp : cq.isEmpty = false := by
        rw [SimpleQueue.isEmpty, decide_eq_false_iff_not]
        exact Nat.not_le_of_lt hlt
      rw [pushLoopCpp, if_neg (by rw [hemp]; exact Bool.false_ne_true)]
      have hpopnode : cq.data.getD cq.front 0 = u := by
        rw [list_getD_eq_headD_drop, ← hq, hjsq]
        rfl
      subst hjsq
      simp only [pushLoopJS, SimpleQueue.pop, hpopnode]
      have hrel1 : QRel rest (fun x => if x = u then false else inq x)
          ⟨cq.data, cq.front + 1, fun x => if x = u then false else cq.inQ x⟩ := by
        refine ⟨hlt, ?_, ?_⟩
        · show rest = List.drop (cq.front + 1) cq.data
          have hdt := List.tail_drop cq.data cq.front
          rw [← hq] at hdt
          exact hdt
        · funext x
          by_cases hx : x = u <;> simp [hx, hinq]
      obtain ⟨hr, hrel2⟩ := pushNeighborsCpp_eq_js arcs v rmax u (adj arcs u) r rest
        (fun x => if x = u then false else inq x)
        ⟨cq.data, cq.front + 1, fun x => if x = u then false else cq.inQ x⟩ hrel1
      rw [hr]
      exact ih _ _ _ _ _ _ hrel2

/-- C9: the JavaScript `pushVSpJS` and the C++ `pushVSp` denote the same
function — for every graph and parameters (and every fuel bound), the two
implementations return equal results; the Set-guarded JS queue and the
C++ `SimpleQueue` realize the same FIFO at-most-once discipline. -/
theorem C9_pushVSpCpp_eq_pushVSpJS (fuel : ℕ) (arcs : Arcs) (s t v : ℕ) (rmax : ℚ) :
    pushVSpCpp fuel arcs s t v rmax = pushVSpJS fuel arcs s t v rmax := by
  have hphase : ∀ seed : ℕ,
      pushLoopCpp arcs v rmax fuel (fun x => if x = seed then 1 else 0) (fun _ => 0)
        (if seed ≠ v then SimpleQueue.push ⟨[], 0, fun _ => false⟩ seed
         else ⟨[], 0, fun _ => false⟩) =
      (pushPhaseJS arcs v rmax seed fuel).map Prod.fst := by
    intro seed
    rw [pushPhaseJS]
    by_cases hv : seed = v
    · rw [if_neg (by simpa using hv), if_pos hv]
      exact (pushLoopCpp_eq_js arcs v rmax fuel _ _ [] (fun _ => false)
        ⟨[], 0, fun _ => false⟩ 0 ⟨Nat.le_refl 0, rfl, rfl⟩).symm
    · rw [if_pos (by simpa using hv), if_neg hv]
      refine (pushLoopCpp_eq_js arcs v rmax fuel _ _ [seed]
        (fun x => if x = seed then true else false)
        (SimpleQueue.push ⟨[], 0, fun _ => false⟩ seed) 0 ?_).symm
      rw [SimpleQueue.push, if_neg (by simp)]
      exact ⟨by simp, rfl, rfl⟩
  rw [pushVSpCpp, pushVSpJS]
  simp only [hphase]
  rcases pushPhaseJS arcs v rmax s fuel with _ | ps
  · rfl
  · rcases pushPhaseJS arcs v rmax t fuel with _ | pt <;> rfl

/-- If the walk starts inside a set `S` of nodes that excludes `v`, have
non-empty adjacency lists, and are closed under taking neighbors (and the
random stream stays in `[0, 1)` as `Math.random()` does), then the walk
never terminates: `walkJS` is `diverged` for every fuel. -/
theorem walkJS_diverges_of_closed (arcs : Arcs) (s t v : ℕ) (ρ : ℕ → ℚ) (S : ℕ → Prop)
    (hv : ∀ u, S u → u ≠ v)
    (hne : ∀ u, S u → adj arcs u ≠ [])
    (hclosed : ∀ u, S u → ∀ x ∈ adj arcs u, S x)
    (hρ : ∀ k, 0 ≤ ρ k ∧ ρ k < 1) :
    ∀ (wfuel u : ℕ), S u → ∀ (k : ℕ) (cs ct : ℚ),
      walkJS arcs s t v ρ wfuel (some u) k cs ct = .diverged := by
  intro wfuel
  induction wfuel with
  | zero => intro u hu k cs ct; rfl
  | succ f ih =>
    intro u hu k cs ct
    have hlen : (adj arcs u).length ≠ 0 :=
      fun h => hne u hu (List.length_eq_zero.mp h)
    have hlt : (⌊ρ k * ((adj arcs u).length : ℚ)⌋).toNat < (adj arcs u).length := by
      rw [Int.toNat_lt' hlen]
      refine Int.floor_lt.mpr ?_
      push_cast
      calc ρ k * ((adj arcs u).length : ℚ)
          < 1 * ((adj arcs u).length : ℚ) := by
            exact mul_lt_mul_of_pos_right (hρ k).2
              (by exact_mod_cast Nat.pos_of_ne_zero hlen)
        _ = ((adj arcs u).length : ℚ) := one_mul _
    rw [walkJS, if_neg (hv u hu), List.get?_eq_get hlt]
    exact ih _ (hclosed u hu _ (List.get_mem _ _ _)) _ _ _

/-- C1 (amended): the reference random-walk estimator imposes **no**
per-walk step cap — a walk terminates only by reaching `v`.  Whenever the
landmark `v` is unreachable from `s` (witnessed by a neighbor-closed set
`S` of positive-degree nodes containing `s` but not `v`), the computation
never returns at all; in particular it never reports the `NaN` sentinel
that the specification mandates. -/
theorem C1_abwalk_has_no_step_cap (arcs : Arcs) (s t v times : ℕ) (ρ : ℕ → ℚ)
    (S : ℕ → Prop) (hs : S s)
    (hv : ∀ u, S u → u ≠ v)
    (hne : ∀ u, S u → adj arcs u ≠ [])
    (hclosed : ∀ u, S u → ∀ x ∈ adj arcs u, S x)
    (hρ : ∀ k, 0 ≤ ρ k ∧ ρ k < 1)
    (htimes : 0 < times) :
    abwalkVSpJSNeverReturns arcs s t v times ρ := by
  intro wfuel k0
  obtain ⟨T, rfl⟩ : ∃ T, times = T + 1 :=
    ⟨times - 1, (Nat.succ_pred_eq_of_pos htimes).symm⟩
  rw [abwalkVSpJS, runWalksJS,
    walkJS_diverges_of_closed arcs s t v ρ S hv hne hclosed hρ wfuel s hs k0 0 0]

/-- C1, witness for the amended theorem: on the two-component graph
`gPair` with landmark `v = 2` unreachable from `s = 0`, the estimator
never returns. -/
theorem C1_witness : abwalkVSpJSNeverReturns gPair 0 1 2 1 (fun _ => 1/2) := by
  refine C1_abwalk_has_no_step_cap gPair 0 1 2 1 (fun _ => 1/2)
    (fun u => u = 0 ∨ u = 1) (Or.inl rfl) ?_ ?_ ?_ ?_ (by norm_num)
  · intro u hu; rcases hu with h | h <;> omega
  · intro u hu; rcases hu with h | h <;> subst h <;>
      norm_num [adj, gPair, List.filter]
  · intro u hu x hx
    rcases hu with h | h <;> subst h <;>
      norm_num [adj, gPair, List.filter] at hx <;> omega
  · intro k; norm_num

/-- C1, counterexample to the claim as stated: on the self-loop graph
`gLoop` with unreachable landmark `v = 1`, no step cap ever fires — the
estimator diverges for every fuel bound instead of returning a sentinel
value. -/
theorem C1_counterexample : abwalkVSpJSNeverReturns gLoop 0 0 1 1 (fun _ => 0) := by
  intro wfuel k0
  rw [abwalkVSpJS, runWalksJS,
    walkJS_diverges_of_closed gLoop 0 0 1 (fun _ => 0) (fun u => u = 0) ?_ ?_ ?_ ?_ wfuel 0 rfl k0 0 0]
  · intro u hu; omega
  · intro u hu; subst hu; norm_num [adj, gLoop, List.filter]
  · intro u hu x hx; subst hu
    norm_num [adj, gLoop, List.filter] at hx
    omega
  · intro k; norm_num

/-- C3, counterexample: the JavaScript estimator `abwalkVSpJS` takes no
seed — it reads the ambient `Math.random()` stream — so two invocations
with identical graph, `s`, `t`, `v` and `times` can return different
results (3/2 under one stream, 1 under another). -/
theorem C3_counterexample :
    abwalkVSpJS 10 gPath 0 1 2 1 rhoA 0 = AbwalkOut.ok (JsNum.num (3/2)) [50, 100] ∧
    abwalkVSpJS 10 gPath 0 1 2 1 rhoB 0 = AbwalkOut.ok (JsNum.num 1) [50, 100] ∧
    abwalkVSpJS 10 gPath 0 1 2 1 rhoA 0 ≠ abwalkVSpJS 10 gPath 0 1 2 1 rhoB 0 := by
  refine ⟨?_, ?_, ?_⟩ <;>
    norm_num [abwalkVSpJS, runWalksJS, walkJS, RunOut.addProg, abwalkCombine,
      jsDivQ, adj, degQ, deg, gPath, rhoA, rhoB, JsNum.sub, JsNum.add, JsNum.neg,
      List.filter]

/-- C3 (amended): the worker seeds the C++ walk estimator explicitly per
invocation (with a seed drawn from `Math.random`, not supplied by the
caller), and that computation is deterministic given its inputs and seed:
its dependence on the ambient randomness factors entirely through the
drawn seed.  The JS estimator, by contrast, is unseeded
(`C3_counterexample`). -/
theorem C3_wasm_deterministic_given_seed (wfuel : ℕ) (arcs : Arcs) (s t v times : ℕ)
    (ρ1 ρ2 : ℕ → ℚ) (hseed : workerSeed ρ1 = workerSeed ρ2) :
    executeAbwalkVSpWASMResult wfuel arcs s t v times ρ1 =
      executeAbwalkVSpWASMResult wfuel arcs s t v times ρ2 := by
  rw [executeAbwalkVSpWASMResult, executeAbwalkVSpWASMResult, hseed]

/-- C3, witness: two different ambient streams that induce the same drawn
seed give the same WASM result. -/
theorem C3_witness :
    workerSeed rhoC = workerSeed rhoD ∧ rhoC 1 ≠ rhoD 1 ∧
      executeAbwalkVSpWASMResult 10 gEdge 0 1 1 1 rhoC =
        executeAbwalkVSpWASMResult 10 gEdge 0 1 1 1 rhoD := by
  refine ⟨by norm_num [workerSeed, rhoC, rhoD], by norm_num [rhoC, rhoD], ?_⟩
  exact C3_wasm_deterministic_given_seed 10 gEdge 0 1 1 1 rhoC rhoD
    (by norm_num [workerSeed, rhoC, rhoD])

/-- C7, counterexample: when the WASM call fails after its 50% progress
message and the worker falls back to the JS walk estimator, the task
observes the progress sequence 50, 25, 50, 75, 100 — not monotonically
non-decreasing. -/
theorem C7_counterexample :
    handleComputeMsgs Alg.abwalkWasm WasmOutcome.failAfterProgress 1 10 gEdge
        0 1 1 (1/10) 2 rhoC =
      some [Msg.progress 50, Msg.progress 25, Msg.progress 50, Msg.progress 75,
        Msg.progress 100, Msg.result (JsNum.num 1)] ∧
    ¬ List.Chain' (· ≤ ·) (progressValues
      [Msg.progress 50, Msg.progress 25, Msg.progress 50, Msg.progress 75,
        Msg.progress 100, Msg.result (JsNum.num 1)]) := by
  constructor
  · norm_num [handleComputeMsgs, abwalkVSpJS, runWalksJS, walkJS, RunOut.addProg,
      abwalkCombine, jsDivQ, adj, degQ, deg, gEdge, rhoC, JsNum.sub, JsNum.add,
      JsNum.neg, List.filter]
  · norm_num [progressValues, List.filterMap, List.chain'_cons, List.chain'_singleton]

theorem RunOut.mem_prog_addProg {x : ℚ} {c : Prop} [Decidable c] {pr : ℚ} {r : RunOut}
    (hx : x ∈ (RunOut.addProg c pr r).prog) : x = pr ∨ x ∈ r.prog := by
  cases r with
  | diverged => exact Or.inr hx
  | crashed L =>
    by_cases hc : c <;> simp [RunOut.addProg, RunOut.prog, hc] at hx ⊢ <;> tauto
  | ok a b k L =>
    by_cases hc : c <;> simp [RunOut.addProg, RunOut.prog, hc] at hx ⊢ <;> tauto

theorem RunOut.pairwise_prog_addProg {c : Prop} [Decidable c] {pr : ℚ} {r : RunOut}
    (hr : List.Pairwise (· ≤ ·) r.prog) (hle : ∀ x ∈ r.prog, pr ≤ x) :
    List.Pairwise (· ≤ ·) ((RunOut.addProg c pr r).prog) := by
  cases r with
  | diverged => exact hr
  | crashed L =>
    by_cases hc : c
    · simp only [RunOut.addProg, RunOut.prog, if_pos hc] at hr hle ⊢
      exact List.pairwise_cons.mpr ⟨hle, hr⟩
    · simpa [RunOut.addProg, RunOut.prog, hc] using hr
  | ok a b k L =>
    by_cases hc : c
    · simp only [RunOut.addProg, RunOut.prog, if_pos hc] at hr hle ⊢
      exact List.pairwise_cons.mpr ⟨hle, hr⟩
    · simpa [RunOut.addProg, RunOut.prog, hc] using hr

/-- Every progress value emitted by the walk loop starting after walk `i`
with `rem` walks to go has the form `base + (j/times)·50` for some walk
number `j` with `i + 1 ≤ j ≤ i + rem`. -/
theorem runWalksJS_prog_mem (arcs : Arcs) (s t v start : ℕ) (ρ : ℕ → ℚ)
    (wfuel times : ℕ) (base : ℚ) :
    ∀ (rem i k : ℕ) (cs ct : ℚ) (x : ℚ),
      x ∈ (runWalksJS arcs s t v start ρ wfuel times base rem i k cs ct).prog →
      ∃ j : ℕ, i + 1 ≤ j ∧ j ≤ i + rem ∧ x = base + (j : ℚ) / (times : ℚ) * 50 := by
  intro rem
  induction rem with
  | zero => intro i k cs ct x hx; simp [runWalksJS, RunOut.prog] at hx
  | succ m ih =>
    intro i k cs ct x hx
    cases hw : walkJS arcs s t v ρ wfuel (some start) k cs ct with
    | diverged => simp only [runWalksJS, hw, RunOut.prog] at hx; simp at hx
    | crashed => simp only [runWalksJS, hw, RunOut.prog] at hx; simp at hx
    | ok cs' ct' k' =>
      simp only [runWalksJS, hw] at hx
      rcases RunOut.mem_prog_addProg hx with hpr | hmem
      · exact ⟨i + 1, Nat.le_refl _, by omega, by push_cast at hpr ⊢; exact hpr⟩
      · obtain ⟨j, hj1, hj2, hj3⟩ := ih (i + 1) k' cs' ct' x hmem
        exact ⟨j, by omega, by omega, hj3⟩

/-- The progress values emitted by the walk loop are non-decreasing. -/
theorem runWalksJS_prog_pairwise (arcs : Arcs) (s t v start : ℕ) (ρ : ℕ → ℚ)
    (wfuel times : ℕ) (base : ℚ) :
    ∀ (rem i k : ℕ) (cs ct : ℚ),
      List.Pairwise (· ≤ ·)
        ((runWalksJS arcs s t v start ρ wfuel times base rem i k cs ct).prog) := by
  intro rem
  induction rem with
  | zero => intro i k cs ct; simp [runWalksJS, RunOut.prog]
  | succ m ih =>
    intro i k cs ct
    cases hw : walkJS arcs s t v ρ wfuel (some start) k cs ct with
    | diverged => simp [runWalksJS, hw, RunOut.prog]
    | crashed => simp [runWalksJS, hw, RunOut.prog]
    | ok cs' ct' k' =>
      simp only [runWalksJS, hw]
      refine RunOut.pairwise_prog_addProg (ih (i + 1) k' cs' ct') ?_
      intro x hx
      obtain ⟨j, hj1, hj2, hj3⟩ :=
        runWalksJS_prog_mem arcs s t v start ρ wfuel times base m (i + 1) k' cs' ct' x hx
      rw [hj3]
      rcases Nat.eq_zero_or_pos times with h0 | hpos
      · simp [h0]
      · have htq : (0 : ℚ) < (times : ℚ) := by exact_mod_cast hpos
        push_cast
        have hjq : (i : ℚ) + 1 ≤ (j : ℚ) := by exact_mod_cast by omega
        gcongr

theorem progressValues_map_progress_append (L : List ℚ) (m : Msg)
    (hm : ∀ q, m ≠ Msg.progress q) :
    progressValues (L.map Msg.progress ++ [m]) = L := by
  rw [progressValues, List.filterMap_append, List.filterMap_map]
  have h1 : List.filterMap
      ((fun m => match m with | Msg.progress q => some q | _ => none) ∘ Msg.progress) L
      = L := by
    induction L with
    | nil => rfl
    | cons a l ihl => simpa [List.filterMap_cons] using ihl
  have h2 : List.filterMap
      (fun m => match m with | Msg.progress q => some q | _ => none) [m] = [] := by
    cases m with
    | progress q => exact absurd rfl (hm q)
    | result r => rfl
    | error => rfl
  rw [h1, h2, List.append_nil]

/-- The progress emitted by `abwalkVSpJS` (whether the computation
finishes or crashes) is non-decreasing and stays within `[0, 100]`. -/
theorem abwalkVSpJS_prog_props (wfuel : ℕ) (arcs : Arcs) (s t v times : ℕ)
    (ρ : ℕ → ℚ) (k0 : ℕ) :
    List.Pairwise (· ≤ ·) ((abwalkVSpJS wfuel arcs s t v times ρ k0).prog) ∧
      ∀ q ∈ (abwalkVSpJS wfuel arcs s t v times ρ k0).prog, 0 ≤ q ∧ q ≤ 100 := by
  have hmem1 : ∀ x ∈ (runWalksJS arcs s t v s ρ wfuel times 0 times 0 k0 0 0).prog,
      0 ≤ x ∧ x ≤ 50 := by
    intro x hx
    obtain ⟨j, hj1, hj2, hj3⟩ :=
      runWalksJS_prog_mem arcs s t v s ρ wfuel times 0 times 0 k0 0 0 x hx
    have htq : (0 : ℚ) < (times : ℚ) := by exact_mod_cast by omega
    have hjt : (j : ℚ) ≤ (times : ℚ) := by exact_mod_cast by omega
    have hdiv : (j : ℚ) / (times : ℚ) ≤ 1 := (div_le_one htq).mpr hjt
    constructor
    · rw [hj3]; positivity
    · rw [hj3]
      nlinarith [hdiv]
  have hmem2 : ∀ (k1 : ℕ),
      ∀ x ∈ (runWalksJS arcs s t v t ρ wfuel times 50 times 0 k1 0 0).prog,
      50 ≤ x ∧ x ≤ 100 := by
    intro k1 x hx
    obtain ⟨j, hj1, hj2, hj3⟩ :=
      runWalksJS_prog_mem arcs s t v t ρ wfuel times 50 times 0 k1 0 0 x hx
    have htq : (0 : ℚ) < (times : ℚ) := by exact_mod_cast by omega
    have hjt : (j : ℚ) ≤ (times : ℚ) := by exact_mod_cast by omega
    have hdiv : (j : ℚ) / (times : ℚ) ≤ 1 := (div_le_one htq).mpr hjt
    have hdiv0 : (0 : ℚ) ≤ (j : ℚ) / (times : ℚ) := by positivity
    constructor
    · rw [hj3]; nlinarith [hdiv0]
    · rw [hj3]; nlinarith [hdiv]
  have hp1 := runWalksJS_prog_pairwise arcs s t v s ρ wfuel times 0 times 0 k0 0 0
  rcases hr1 : runWalksJS arcs s t v s ρ wfuel times 0 times 0 k0 0 0 with _ | L1 | ⟨a, b, k1, L1⟩
  · simp [abwalkVSpJS, hr1, AbwalkOut.prog]
  · rw [hr1] at hp1 hmem1
    simp only [abwalkVSpJS, hr1]
    exact ⟨hp1, fun q hq => ⟨(hmem1 q hq).1, le_trans (hmem1 q hq).2 (by norm_num)⟩⟩
  · rw [hr1] at hp1 hmem1
    have hp2 := runWalksJS_prog_pairwise arcs s t v t ρ wfuel times 50 times 0 k1 0 0
    have hm2 := hmem2 k1
    rcases hr2 : runWalksJS arcs s t v t ρ wfuel times 50 times 0 k1 0 0 with _ | L2 | ⟨c, d, k2, L2⟩
    · simp [abwalkVSpJS, hr1, hr2, AbwalkOut.prog]
    · rw [hr2] at hp2 hm2
      simp only [abwalkVSpJS, hr1, hr2]
      refine ⟨List.pairwise_append.mpr ⟨hp1, hp2, ?_⟩, ?_⟩
      · intro x hx y hy
        exact le_trans (hmem1 x hx).2 (hm2 y hy).1
      · intro q hq
        rcases List.mem_append.mp hq with hq1 | hq2
        · exact ⟨(hmem1 q hq1).1, le_trans (hmem1 q hq1).2 (by norm_num)⟩
        · exact ⟨le_trans (by norm_num) (hm2 q hq2).1, (hm2 q hq2).2⟩
    · rw [hr2] at hp2 hm2
      simp only [abwalkVSpJS, hr1, hr2]
      refine ⟨List.pairwise_append.mpr ⟨hp1, hp2, ?_⟩, ?_⟩
      · intro x hx y hy
        exact le_trans (hmem1 x hx).2 (hm2 y hy).1
      · intro q hq
        rcases List.mem_append.mp hq with hq1 | hq2
        · exact ⟨(hmem1 q hq1).1, le_trans (hmem1 q hq1).2 (by norm_num)⟩
        · exact ⟨le_trans (by norm_num) (hm2 q hq2).1, (hm2 q hq2).2⟩

/-- C7 (amended): on the pure-JS algorithm paths (`push-v-sp-js` and
`abwalk-v-sp-js`), the progress values for a task form a monotonically
non-decreasing sequence in `[0, 100]`, and every progress message
precedes the single terminal `RESULT`/`ERROR` message.  (On the WASM
paths this fails: a fallback after the 50% progress message restarts the
JS progress below 50 — see the counterexample.) -/
theorem C7_js_progress_monotone_before_terminal
    (alg : Alg) (wout : WasmOutcome) (fuel wfuel : ℕ) (arcs : Arcs)
    (s t v : ℕ) (rmax : ℚ) (times : ℕ) (ρ : ℕ → ℚ) (msgs : List Msg)
    (halg : alg = Alg.pushJS ∨ alg = Alg.abwalkJS)
    (h : handleComputeMsgs alg wout fuel wfuel arcs s t v rmax times ρ = some msgs) :
    List.Chain' (· ≤ ·) (progressValues msgs) ∧
      (∀ q ∈ progressValues msgs, 0 ≤ q ∧ q ≤ 100) ∧
      ∃ term : Msg, msgs = (progressValues msgs).map Msg.progress ++ [term] ∧
        ∀ q : ℚ, term ≠ Msg.progress q := by
  rcases halg with h1 | h1 <;> subst h1
  · rcases hs' : pushPhaseJS arcs v rmax s fuel with _ | phs
    · simp [handleComputeMsgs, pushVSpJSWithProg, hs'] at h
    · rcases ht' : pushPhaseJS arcs v rmax t fuel with _ | pht
      · simp [handleComputeMsgs, pushVSpJSWithProg, hs', ht'] at h
      · have heq : pushVSpJSWithProg fuel arcs s t v rmax =
            some (List.replicate (phs.2 / 100) 25 ++ List.replicate (pht.2 / 100) 75
              ++ [100], pushCombine arcs s t phs.1 pht.1) := by
          simp [pushVSpJSWithProg, hs', ht']
        rw [handleComputeMsgs, heq] at h
        obtain rfl : (List.replicate (phs.2 / 100) (25:ℚ) ++ List.replicate (pht.2 / 100) 75
            ++ [100]).map Msg.progress ++ [Msg.result (pushCombine arcs s t phs.1 pht.1)]
            = msgs := by exact Option.some_injective _ h
        have hPV : progressValues _ = List.replicate (phs.2 / 100) (25:ℚ)
            ++ List.replicate (pht.2 / 100) 75 ++ [100] :=
          progressValues_map_progress_append _
            (Msg.result (pushCombine arcs s t phs.1 pht.1)) (fun q hq => by simp at hq)
        rw [hPV]
        have hpw : List.Pairwise (· ≤ ·) (List.replicate (phs.2 / 100) (25:ℚ)
            ++ List.replicate (pht.2 / 100) 75 ++ [100]) := by
          refine List.pairwise_append.mpr ⟨List.pairwise_append.mpr
            ⟨List.pairwise_replicate.mpr (Or.inr (le_refl (25:ℚ))),
             List.pairwise_replicate.mpr (Or.inr (le_refl (75:ℚ))), ?_⟩, List.pairwise_singleton _ _, ?_⟩
          · intro a ha b hb
            rw [List.eq_of_mem_replicate ha, List.eq_of_mem_replicate hb]
            norm_num
          · intro a ha b hb
            rcases List.mem_append.mp ha with ha' | ha' <;>
              rw [List.eq_of_mem_replicate ha'] <;>
              rw [List.mem_singleton.mp hb] <;> norm_num
        refine ⟨hpw.chain', ?_, ?_⟩
        · intro q hq
          rcases List.mem_append.mp hq with hq' | hq'
          · rcases List.mem_append.mp hq' with hq'' | hq'' <;>
              rw [List.eq_of_mem_replicate hq''] <;> norm_num
          · rw [List.mem_singleton.mp hq']; norm_num
        · exact ⟨Msg.result (pushCombine arcs s t phs.1 pht.1), rfl,
            fun q hq => by simp at hq⟩
  · obtain ⟨hpw, hbd⟩ := abwalkVSpJS_prog_props wfuel arcs s t v times ρ 0
    rcases hab : abwalkVSpJS wfuel arcs s t v times ρ 0 with _ | L | ⟨r, L⟩
    · simp [handleComputeMsgs, hab] at h
    · rw [hab] at hpw hbd
      simp only [handleComputeMsgs, hab] at h
      obtain rfl : L.map Msg.progress ++ [Msg.error] = msgs := Option.some_injective _ h
      have hPV : progressValues _ = L :=
        progressValues_map_progress_append _ Msg.error (fun q hq => by simp at hq)
      rw [hPV]
      exact ⟨hpw.chain', hbd, Msg.error, rfl, fun q hq => by simp at hq⟩
    · rw [hab] at hpw hbd
      simp only [handleComputeMsgs, hab] at h
      obtain rfl : L.map Msg.progress ++ [Msg.result r] = msgs := Option.some_injective _ h
      have hPV : progressValues _ = L :=
        progressValues_map_progress_append _ (Msg.result r) (fun q hq => by simp at hq)
      rw [hPV]
      exact ⟨hpw.chain', hbd, Msg.result r, rfl, fun q hq => by simp at hq⟩

/-- C7, witness for the amended theorem: a concrete `abwalk-v-sp-js` run. -/
theorem C7_witness :
    List.Chain' (· ≤ ·) (progressValues [Msg.progress 25, Msg.progress 50,
        Msg.progress 75, Msg.progress 100, Msg.result (JsNum.num 1)]) ∧
      (∀ q ∈ progressValues [Msg.progress 25, Msg.progress 50, Msg.progress 75,
        Msg.progress 100, Msg.result (JsNum.num 1)], 0 ≤ q ∧ q ≤ 100) ∧
      ∃ term : Msg, [Msg.progress 25, Msg.progress 50, Msg.progress 75,
          Msg.progress 100, Msg.result (JsNum.num 1)] =
          (progressValues [Msg.progress 25, Msg.progress 50, Msg.progress 75,
            Msg.progress 100, Msg.result (JsNum.num 1)]).map Msg.progress ++ [term] ∧
        ∀ q : ℚ, term ≠ Msg.progress q := by
  refine C7_js_progress_monotone_before_terminal Alg.abwalkJS WasmOutcome.ok 1 10 gEdge
    0 1 1 (1/10) 2 rhoC _ (Or.inr rfl) ?_
  norm_num [handleComputeMsgs, abwalkVSpJS, runWalksJS, walkJS, RunOut.addProg,
    abwalkCombine, jsDivQ, adj, degQ, deg, gEdge, rhoC, JsNum.sub, JsNum.add,
    JsNum.neg, List.filter]

theorem hookRun_no_delivery_of_unregistered (id : ℕ) :
    ∀ (evs : List HEvent) (tasks : List ℕ), id ∉ tasks →
      (∀ e ∈ evs, e ≠ HEvent.compute id) →
      ∀ d ∈ (hookRun tasks evs).2, d.id ≠ id := by
  intro evs
  induction evs with
  | nil => intro tasks hid hnc d hd; simp [hookRun] at hd
  | cons e rest ih =>
    intro tasks hid hnc d hd
    rw [hookRun] at hd
    rcases List.mem_append.mp hd with hd1 | hd2
    · -- delivery produced by this event
      cases e with
      | compute i => simp [hookStep] at hd1
      | cancel i => simp [hookStep] at hd1
      | workerMsg kind i =>
        by_cases hmem : i ∈ tasks
        · have hii : i ≠ id := fun hcon => hid (hcon ▸ hmem)
          cases kind <;> simp [hookStep, hmem] at hd1 <;>
            (rw [hd1]; simpa using hii)
        · simp [hookStep, hmem] at hd1
    · -- delivery produced later: id is still unregistered afterwards
      refine ih (hookStep tasks e).1 ?_ (fun x hx => hnc x (List.mem_cons_of_mem _ hx)) d hd2
      cases e with
      | compute i =>
        have hne : HEvent.compute i ≠ HEvent.compute id := hnc _ (List.mem_cons_self _ _)
        have hii : id ≠ i := fun hcon => hne (by rw [hcon])
        intro hcon
        rcases List.mem_cons.mp hcon with h1 | h1
        · exact hii h1
        · exact hid h1
      | cancel i =>
        intro hcon
        exact hid (List.mem_filter.mp hcon).1
      | workerMsg kind i =>
        by_cases hmem : i ∈ tasks
        · cases kind with
          | result =>
            intro hcon
            simp only [hookStep, if_pos hmem, List.mem_filter] at hcon
            exact hid hcon.1
          | error =>
            intro hcon
            simp only [hookStep, if_pos hmem, List.mem_filter] at hcon
            exact hid hcon.1
          | progress =>
            intro hcon
            simp only [hookStep, if_pos hmem] at hcon
            exact hid hcon
        · intro hcon
          simp only [hookStep, if_neg hmem] at hcon
          exact hid hcon

/-- C4: once a CANCEL for a taskId has been processed, no later event —
progress or terminal worker message included — produces a delivery for
that taskId (as long as the id is not re-registered by a fresh `compute`,
which generates fresh ids in the source). -/
theorem C4_no_delivery_after_cancel (tasks : List ℕ) (id : ℕ) (evs : List HEvent)
    (hnc : ∀ e ∈ evs, e ≠ HEvent.compute id) :
    (hookRun tasks (HEvent.cancel id :: evs)).2.filter (fun d => d.id = id) = [] := by
  rw [hookRun]
  have hstep : (hookStep tasks (HEvent.cancel id)).2 = [] := rfl
  rw [List.filter_eq_nil_iff]
  intro d hd
  rcases List.mem_append.mp hd with hd1 | hd2
  · rw [hstep] at hd1; simp at hd1
  · have hid : id ∉ (hookStep tasks (HEvent.cancel id)).1 := by
      simp [hookStep]
    have := hookRun_no_delivery_of_unregistered id evs _ hid hnc d hd2
    simpa using this

/-- C4, witness: compute task 1, cancel it immediately, then let the
worker's RESULT (which its no-op CANCEL handler still produces) and a
PROGRESS message arrive: nothing is delivered for task 1. -/
theorem C4_witness :
    (hookRun [] [HEvent.compute 1, HEvent.cancel 1,
      HEvent.workerMsg WKind.progress 1,
      HEvent.workerMsg WKind.result 1]).2.filter (fun d => d.id = 1) = [] := by
  have h := C4_no_delivery_after_cancel [1] 1
    [HEvent.workerMsg WKind.progress 1, HEvent.workerMsg WKind.result 1]
    (by decide)
  rw [hookRun]
  simpa [hookStep] using h

/-- C8: `calculateErrorMetrics` returns `absolute = |result − groundTruth|`;
`relative` is the quotient whenever `|groundTruth| ≥ 1e-10` and positive
infinity when `|groundTruth| < 1e-10`. -/
theorem C8_error_metrics_formula (result groundTruth : ℚ) :
    (calculateErrorMetrics result groundTruth).absolute = |result - groundTruth| ∧
      (1 / 10 ^ 10 ≤ |groundTruth| →
        (calculateErrorMetrics result groundTruth).relative =
          JsNum.num (|result - groundTruth| / |groundTruth|)) ∧
      (|groundTruth| < 1 / 10 ^ 10 →
        (calculateErrorMetrics result groundTruth).relative = JsNum.inf) := by
  refine ⟨rfl, fun h => ?_, fun h => ?_⟩
  · show calculateRelativeError result groundTruth = _
    rw [calculateRelativeError, if_neg (not_lt.mpr h)]
  · show calculateRelativeError result groundTruth = _
    rw [calculateRelativeError, if_pos h]

/-- C8, witness: concrete evaluations on both sides of the epsilon. -/
theorem C8_witness :
    (1 / 10 ^ 10 ≤ |(2 : ℚ)| ∧
      (calculateErrorMetrics 3 2).relative = JsNum.num (|(3 : ℚ) - 2| / |(2 : ℚ)|)) ∧
    (|(0 : ℚ)| < 1 / 10 ^ 10 ∧ (calculateErrorMetrics 3 0).relative = JsNum.inf) := by
  constructor
  · exact ⟨by norm_num, (C8_error_metrics_formula 3 2).2.1 (by norm_num)⟩
  · exact ⟨by norm_num, (C8_error_metrics_formula 3 0).2.2 (by norm_num)⟩

theorem processLine_blank (st : PState) (l : List Char)
    (hl : l.isEmpty = true ∨ startsWithHash l = true) :
    processLine st l = Except.ok { st with lineNumber := st.lineNumber + 1 } := by
  rcases hl with h | h
  · simp [processLine, h]
  · by_cases he : l.isEmpty = true <;> simp [processLine, he, h]

theorem pstate_update_update (st : PState) (m n : ℕ) :
    ({ { st with lineNumber := m } with lineNumber := n } : PState) =
      { st with lineNumber := n } := rfl

/-- Folding the line processor over blank and comment lines only advances
the line counter. -/
theorem foldlM_processLine_blank :
    ∀ (pre : List (List Char)),
      (∀ x ∈ pre, x.isEmpty = true ∨ startsWithHash x = true) →
      ∀ st : PState, List.foldlM processLine st pre =
        Except.ok { st with lineNumber := st.lineNumber + pre.length } := by
  intro pre
  induction pre with
  | nil => intro hpre st; rfl
  | cons x rest ih =>
    intro hpre st
    rw [List.foldlM_cons, processLine_blank st x (hpre x (List.mem_cons_self _ _))]
    show List.foldlM processLine { st with lineNumber := st.lineNumber + 1 } rest = _
    rw [ih (fun y hy => hpre y (List.mem_cons_of_mem _ hy)), pstate_update_update]
    have hz : ({ st with lineNumber := st.lineNumber + 1 } : PState).lineNumber
        = st.lineNumber + 1 := rfl
    rw [hz]
    have harith : st.lineNumber + 1 + rest.length = st.lineNumber + (x :: rest).length := by
      simp
      omega
    rw [harith]

/-- C10: if the first non-blank, non-comment line of the input consists
of exactly two tokens parsing to positive integers, it is consumed as the
metadata line and contributes no arcs; when it is also the only
non-comment line, `parseEdgeList` throws
`GraphParseError("No edges found in the file")` instead of producing a
one-edge graph. -/
theorem C10_metadata_line_consumed (content : List Char) (pre : List (List Char))
    (l t1 t2 : List Char) (a b : ℤ)
    (hlines : linesOf content = pre ++ [l])
    (hpre : ∀ x ∈ pre, x.isEmpty = true ∨ startsWithHash x = true)
    (hhash : startsWithHash l = false)
    (htok : splitWS l = [t1, t2])
    (ht1 : jsParseInt t1 = some a) (ht2 : jsParseInt t2 = some b)
    (ha : 0 < a) (hb : 0 < b) :
    parseEdgeList content = Except.error "No edges found in the file" := by
  have hlne : l.isEmpty = false := by
    cases hl : l with
    | nil => rw [hl] at htok; simp [splitWS, splitWSAux] at htok
    | cons c cs => rfl
  have hmeta : metaCheck false [t1, t2] = some (a, b) := by
    simp [metaCheck, ht1, ht2, ha, hb]
  have hproc : processLine { initPState with lineNumber := pre.length } l =
      Except.ok { initPState with
        lineNumber := pre.length + 1,
        declaredN := some a, declaredM := some b, firstData := true } := by
    rw [processLine]
    simp only [hlne, Bool.false_eq_true, if_false, hhash, htok]
    rw [show metaCheck initPState.firstData [t1, t2] = some (a, b) from hmeta]
  rw [parseEdgeList, hlines, List.foldlM_append,
    foldlM_processLine_blank pre hpre initPState]
  show (match (List.foldlM processLine
      { initPState with lineNumber := initPState.lineNumber + pre.length } [l] :
        Except String PState) with
    | Except.error e => Except.error e
    | Except.ok st => finishParse st) = _
  rw [List.foldlM_cons]
  have hinit : ({ initPState with lineNumber := initPState.lineNumber + pre.length } :
      PState) = { initPState with lineNumber := pre.length } := by
    rw [show initPState.lineNumber = 0 from rfl]
    rw [show 0 + pre.length = pre.length from by omega]
  rw [hinit, hproc]
  rfl

/-- C10, witness: the input whose only non-comment line is `1 2` is
rejected with the no-edges parse error. -/
theorem C10_witness :
    parseEdgeList "# c\n1 2".data = Except.error "No edges found in the file" := by
  refine C10_metadata_line_consumed "# c\n1 2".data ["# c".data] "1 2".data
    "1".data "2".data 1 2 ?_ ?_ ?_ ?_ ?_ ?_ ?_ ?_
  · decide
  · decide
  · decide
  · decide
  · decide
  · decide
  · decide
  · decide

end RWeb
